import Mathlib

set_option linter.unusedVariables false

/-! Shallow embedding of the collaborative live-coding editor's
synchronization core: the operation extractor and the cursor rebaser from
the frontend utility module cursorTransform.ts, and the room coordinator
(the websocket CodeGateway together with the document store service) from
the backend. JavaScript strings are modelled as List Char, string indices
and lengths as Nat. -/

inductive OpType where
  | insert
  | delete
deriving DecidableEq

/-- The TextOperation record of cursorTransform.ts: a tagged insert/delete
with a zero-based offset into the pre-operation text, a length, and (for
inserts) the inserted content. -/
structure TextOperation where
  type : OpType
  position : Nat
  length : Nat
  content : Option (List Char)
deriving DecidableEq

/-- Length of the longest common prefix of two character lists; embeds the
first while loop of calculateTextOperation. -/
def commonPrefixLen : List Char → List Char → Nat
  | a :: as, b :: bs => if a = b then commonPrefixLen as bs + 1 else 0
  | _, _ => 0

/-- The bounded common-suffix scan of calculateTextOperation: the loop stops
as soon as the scanned length reaches oldText.length - prefixLength or
newText.length - prefixLength, or the characters from the two ends differ,
so its result is the minimum of those three stopping points. -/
def commonSuffixLen (oldText newText : List Char) (prefixLength : Nat) : Nat :=
  min (commonPrefixLen oldText.reverse newText.reverse)
    (min (oldText.length - prefixLength) (newText.length - prefixLength))

def prefixLengthOf (oldText newText : List Char) : Nat :=
  commonPrefixLen oldText newText

def suffixLengthOf (oldText newText : List Char) : Nat :=
  commonSuffixLen oldText newText (prefixLengthOf oldText newText)

/-- oldText.slice(prefixLength, oldText.length - suffixLength). -/
def oldMiddleOf (oldText newText : List Char) : List Char :=
  (oldText.take (oldText.length - suffixLengthOf oldText newText)).drop
    (prefixLengthOf oldText newText)

/-- newText.slice(prefixLength, newText.length - suffixLength). -/
def newMiddleOf (oldText newText : List Char) : List Char :=
  (newText.take (newText.length - suffixLengthOf oldText newText)).drop
    (prefixLengthOf oldText newText)

/-- The net character delta of a replacement, newMiddle.length -
oldMiddle.length, as a signed integer (the netChange local of
calculateTextOperation). -/
def netChangeOf (oldText newText : List Char) : Int :=
  ((newMiddleOf oldText newText).length : Int) - ((oldMiddleOf oldText newText).length : Int)

/-- calculateTextOperation of cursorTransform.ts.  The changePosition
argument is accepted (as in the source) but never read. -/
def calculateTextOperation (oldText newText : List Char) (changePosition : Nat) :
    Option TextOperation :=
  if oldText = newText then none
  else if (oldMiddleOf oldText newText).length = 0 ∧ 0 < (newMiddleOf oldText newText).length then
    some ⟨.insert, prefixLengthOf oldText newText, (newMiddleOf oldText newText).length,
      some (newMiddleOf oldText newText)⟩
  else if 0 < (oldMiddleOf oldText newText).length ∧ (newMiddleOf oldText newText).length = 0 then
    some ⟨.delete, prefixLengthOf oldText newText, (oldMiddleOf oldText newText).length, none⟩
  else if 0 < (oldMiddleOf oldText newText).length ∧ 0 < (newMiddleOf oldText newText).length then
    if 0 < netChangeOf oldText newText then
      some ⟨.insert, prefixLengthOf oldText newText, (netChangeOf oldText newText).toNat,
        some (newMiddleOf oldText newText)⟩
    else if netChangeOf oldText newText < 0 then
      some ⟨.delete, prefixLengthOf oldText newText, (-netChangeOf oldText newText).toNat, none⟩
    else none
  else none

/-- Insertion of a substring at a character offset (the conceptual effect of
an Insert operation on the pre-operation text). -/
def applyInsert (text : List Char) (position : Nat) (content : List Char) : List Char :=
  text.take position ++ content ++ text.drop position

/-- Removal of a span of characters (the conceptual effect of a Delete
operation on the pre-operation text). -/
def applyDelete (text : List Char) (position length : Nat) : List Char :=
  text.take position ++ text.drop (position + length)

def applyOperation (text : List Char) (op : TextOperation) : List Char :=
  match op.type with
  | .insert => applyInsert text op.position (op.content.getD [])
  | .delete => applyDelete text op.position op.length

theorem commonPrefixLen_le_left : ∀ a b : List Char, commonPrefixLen a b ≤ a.length
  | [], _ => Nat.le_refl _
  | _ :: _, [] => Nat.zero_le _
  | a :: as, b :: bs => by
    by_cases h : a = b
    · simpa [commonPrefixLen, h] using commonPrefixLen_le_left as bs
    · simp [commonPrefixLen, h]

theorem commonPrefixLen_le_right : ∀ a b : List Char, commonPrefixLen a b ≤ b.length
  | [], _ => Nat.zero_le _
  | _ :: _, [] => Nat.le_refl _
  | a :: as, b :: bs => by
    by_cases h : a = b
    · simpa [commonPrefixLen, h] using commonPrefixLen_le_right as bs
    · simp [commonPrefixLen, h]

theorem commonPrefixLen_self : ∀ l : List Char, commonPrefixLen l l = l.length
  | [] => rfl
  | a :: as => by simp [commonPrefixLen, commonPrefixLen_self as]

theorem commonPrefixLen_take : ∀ a b : List Char,
    a.take (commonPrefixLen a b) = b.take (commonPrefixLen a b)
  | [], _ => by simp [commonPrefixLen]
  | _ :: _, [] => by simp [commonPrefixLen]
  | a :: as, b :: bs => by
    by_cases h : a = b
    · simp [commonPrefixLen, h, commonPrefixLen_take as bs]
    · simp [commonPrefixLen, h]

theorem suffixLengthOf_le_old (oldText newText : List Char) :
    suffixLengthOf oldText newText ≤ oldText.length - prefixLengthOf oldText newText := by
  unfold suffixLengthOf commonSuffixLen
  omega

theorem suffixLengthOf_le_new (oldText newText : List Char) :
    suffixLengthOf oldText newText ≤ newText.length - prefixLengthOf oldText newText := by
  unfold suffixLengthOf commonSuffixLen
  omega

theorem oldMiddleOf_length (oldText newText : List Char) :
    (oldMiddleOf oldText newText).length =
      oldText.length - suffixLengthOf oldText newText - prefixLengthOf oldText newText := by
  have h := suffixLengthOf_le_old oldText newText
  simp only [oldMiddleOf, List.length_drop, List.length_take]
  omega

theorem newMiddleOf_length (oldText newText : List Char) :
    (newMiddleOf oldText newText).length =
      newText.length - suffixLengthOf oldText newText - prefixLengthOf oldText newText := by
  have h := suffixLengthOf_le_new oldText newText
  simp only [newMiddleOf, List.length_drop, List.length_take]
  omega

theorem newMiddleOf_eq_nil_of_eq (oldText newText : List Char) (h : oldText = newText) :
    newMiddleOf oldText newText = [] := by
  subst h
  have h1 : prefixLengthOf oldText oldText = oldText.length := commonPrefixLen_self oldText
  have h2 := newMiddleOf_length oldText oldText
  rw [← List.length_eq_zero]
  omega

theorem oldMiddleOf_eq_nil_of_eq (oldText newText : List Char) (h : oldText = newText) :
    oldMiddleOf oldText newText = [] := by
  subst h
  have h1 : prefixLengthOf oldText oldText = oldText.length := commonPrefixLen_self oldText
  have h2 := oldMiddleOf_length oldText oldText
  rw [← List.length_eq_zero]
  omega

/-- C1: whenever prefix/suffix trimming leaves the old middle empty and the
new middle non-empty, calculateTextOperation returns an Insert at the
common-prefix offset whose length and content are the new middle; in
particular diffing "hello world" against "hello beautiful world" yields
Insert at position 6, length 10, content "beautiful ". -/
theorem calculateTextOperation_pure_insert
    (oldText newText : List Char) (changePosition : Nat)
    (hOld : oldMiddleOf oldText newText = [])
    (hNew : newMiddleOf oldText newText ≠ []) :
    calculateTextOperation oldText newText changePosition =
      some ⟨.insert, prefixLengthOf oldText newText,
        (newMiddleOf oldText newText).length, some (newMiddleOf oldText newText)⟩ ∧
    calculateTextOperation "hello world".toList "hello beautiful world".toList changePosition =
      some ⟨.insert, 6, 10, some "beautiful ".toList⟩ := by
  constructor
  · have hne : oldText ≠ newText := fun h => hNew (newMiddleOf_eq_nil_of_eq _ _ h)
    have hlen : (newMiddleOf oldText newText).length ≠ 0 :=
      fun h => hNew (List.length_eq_zero.mp h)
    unfold calculateTextOperation
    rw [if_neg hne, if_pos ⟨by simp [hOld], by omega⟩]
  · rfl

theorem calculateTextOperation_pure_insert_witness :
    calculateTextOperation "ab".toList "axb".toList 0 =
      some ⟨.insert, 1, 1, some ['x']⟩ :=
  (calculateTextOperation_pure_insert "ab".toList "axb".toList 0
    (by decide) (by decide)).1

/-- C2: when trimming leaves both middles non-empty, calculateTextOperation
collapses the replacement to its net length delta: a longer new middle gives
an Insert at the prefix offset with length equal to the delta and the full
new middle as content, a shorter one gives a Delete with the delta's
magnitude, and equal lengths give no operation. -/
theorem calculateTextOperation_replacement
    (oldText newText : List Char) (changePosition : Nat)
    (hOld : oldMiddleOf oldText newText ≠ [])
    (hNew : newMiddleOf oldText newText ≠ []) :
    ((oldMiddleOf oldText newText).length < (newMiddleOf oldText newText).length →
      calculateTextOperation oldText newText changePosition =
        some ⟨.insert, prefixLengthOf oldText newText,
          (newMiddleOf oldText newText).length - (oldMiddleOf oldText newText).length,
          some (newMiddleOf oldText newText)⟩) ∧
    ((newMiddleOf oldText newText).length < (oldMiddleOf oldText newText).length →
      calculateTextOperation oldText newText changePosition =
        some ⟨.delete, prefixLengthOf oldText newText,
          (oldMiddleOf oldText newText).length - (newMiddleOf oldText newText).length,
          none⟩) ∧
    ((newMiddleOf oldText newText).length = (oldMiddleOf oldText newText).length →
      calculateTextOperation oldText newText changePosition = none) := by
  have hne : oldText ≠ newText := fun h => hNew (newMiddleOf_eq_nil_of_eq _ _ h)
  have hOldLen : (oldMiddleOf oldText newText).length ≠ 0 :=
    fun h => hOld (List.length_eq_zero.mp h)
  have hNewLen : (newMiddleOf oldText newText).length ≠ 0 :=
    fun h => hNew (List.length_eq_zero.mp h)
  refine ⟨fun hlt => ?_, fun hlt => ?_, fun heq => ?_⟩
  · unfold calculateTextOperation netChangeOf
    rw [if_neg hne, if_neg (by omega), if_neg (by omega), if_pos ⟨by omega, by omega⟩,
      if_pos (by omega)]
    congr 2
    omega
  · unfold calculateTextOperation netChangeOf
    rw [if_neg hne, if_neg (by omega), if_neg (by omega), if_pos ⟨by omega, by omega⟩,
      if_neg (by omega), if_pos (by omega)]
    congr 2
    omega
  · unfold calculateTextOperation netChangeOf
    rw [if_neg hne, if_neg (by omega), if_neg (by omega), if_pos ⟨by omega, by omega⟩,
      if_neg (by omega), if_neg (by omega)]

theorem calculateTextOperation_replacement_witness :
    calculateTextOperation ['a'] ['b', 'c'] 0 = some ⟨.insert, 0, 1, some ['b', 'c']⟩ :=
  (calculateTextOperation_replacement ['a'] ['b', 'c'] 0 (by decide) (by decide)).1
    (by decide)

/-- C7: every operation produced by calculateTextOperation is well formed
with respect to the pre-operation text: a Delete satisfies
position + length ≤ oldText.length and an Insert satisfies
position ≤ oldText.length. -/
theorem calculateTextOperation_wellFormed
    (oldText newText : List Char) (changePosition : Nat) (op : TextOperation)
    (h : calculateTextOperation oldText newText changePosition = some op) :
    (op.type = .delete → op.position + op.length ≤ oldText.length) ∧
    (op.type = .insert → op.position ≤ oldText.length) := by
  have hp : prefixLengthOf oldText newText ≤ oldText.length :=
    commonPrefixLen_le_left oldText newText
  have hOldLen := oldMiddleOf_length oldText newText
  have hNewLen := newMiddleOf_length oldText newText
  have hnc : netChangeOf oldText newText =
      ((newMiddleOf oldText newText).length : Int) -
        ((oldMiddleOf oldText newText).length : Int) := rfl
  unfold calculateTextOperation at h
  split at h
  · exact absurd h (by simp)
  · split at h
    · rw [Option.some_inj] at h
      subst h
      constructor
      · intro ht
        simp at ht
      · intro _
        simpa using hp
    · split at h
      · rw [Option.some_inj] at h
        subst h
        constructor
        · intro _
          simp only
          omega
        · intro ht
          simp at ht
      · split at h
        · split at h
          · rw [Option.some_inj] at h
            subst h
            constructor
            · intro ht
              simp at ht
            · intro _
              simpa using hp
          · split at h
            · rw [Option.some_inj] at h
              subst h
              constructor
              · intro _
                simp only
                omega
              · intro ht
                simp at ht
            · exact absurd h (by simp)
        · exact absurd h (by simp)

theorem calculateTextOperation_wellFormed_witness :
    6 + 10 ≤ "hello beautiful world".toList.length :=
  (calculateTextOperation_wellFormed "hello beautiful world".toList "hello world".toList 0
    ⟨.delete, 6, 10, none⟩ (by decide)).1 rfl

theorem prefix_suffix_le_old (oldText newText : List Char) :
    prefixLengthOf oldText newText + suffixLengthOf oldText newText ≤ oldText.length := by
  have h1 := suffixLengthOf_le_old oldText newText
  have h2 := commonPrefixLen_le_left oldText newText
  unfold prefixLengthOf at *
  omega

theorem prefix_suffix_le_new (oldText newText : List Char) :
    prefixLengthOf oldText newText + suffixLengthOf oldText newText ≤ newText.length := by
  have h1 := suffixLengthOf_le_new oldText newText
  have h2 := commonPrefixLen_le_right oldText newText
  unfold prefixLengthOf at *
  omega

theorem take_prefixLengthOf_eq (oldText newText : List Char) :
    oldText.take (prefixLengthOf oldText newText) =
      newText.take (prefixLengthOf oldText newText) :=
  commonPrefixLen_take oldText newText

theorem drop_suffixLengthOf_eq (oldText newText : List Char) :
    oldText.drop (oldText.length - suffixLengthOf oldText newText) =
      newText.drop (newText.length - suffixLengthOf oldText newText) := by
  have hrev : oldText.reverse.take (suffixLengthOf oldText newText) =
      newText.reverse.take (suffixLengthOf oldText newText) := by
    have hs : suffixLengthOf oldText newText ≤
        commonPrefixLen oldText.reverse newText.reverse := by
      unfold suffixLengthOf commonSuffixLen
      omega
    have h := commonPrefixLen_take oldText.reverse newText.reverse
    calc oldText.reverse.take (suffixLengthOf oldText newText)
        = (oldText.reverse.take (commonPrefixLen oldText.reverse newText.reverse)).take
            (suffixLengthOf oldText newText) := by
          rw [List.take_take]
          congr 1
          omega
      _ = (newText.reverse.take (commonPrefixLen oldText.reverse newText.reverse)).take
            (suffixLengthOf oldText newText) := by rw [h]
      _ = newText.reverse.take (suffixLengthOf oldText newText) := by
          rw [List.take_take]
          congr 1
          omega
  have hold : oldText.drop (oldText.length - suffixLengthOf oldText newText) =
      (oldText.reverse.take (suffixLengthOf oldText newText)).reverse := by
    rw [List.take_reverse, List.reverse_reverse]
  have hnew : newText.drop (newText.length - suffixLengthOf oldText newText) =
      (newText.reverse.take (suffixLengthOf oldText newText)).reverse := by
    rw [List.take_reverse, List.reverse_reverse]
  rw [hold, hnew, hrev]

theorem middle_decomposition (l : List Char) (p s : Nat) (h : p + s ≤ l.length) :
    l = l.take p ++ (l.take (l.length - s)).drop p ++ l.drop (l.length - s) := by
  have h1 : l.take (l.length - s) = l.take p ++ (l.take (l.length - s)).drop p := by
    conv_lhs => rw [← List.take_append_drop p (l.take (l.length - s))]
    rw [List.take_take]
    congr 2
    omega
  conv_lhs => rw [← List.take_append_drop (l.length - s) l, h1]

theorem oldText_decomposition (oldText newText : List Char) :
    oldText = oldText.take (prefixLengthOf oldText newText) ++ oldMiddleOf oldText newText ++
      oldText.drop (oldText.length - suffixLengthOf oldText newText) :=
  middle_decomposition oldText _ _ (prefix_suffix_le_old oldText newText)

theorem newText_decomposition (oldText newText : List Char) :
    newText = newText.take (prefixLengthOf oldText newText) ++ newMiddleOf oldText newText ++
      newText.drop (newText.length - suffixLengthOf oldText newText) :=
  middle_decomposition newText _ _ (prefix_suffix_le_new oldText newText)

theorem eq_of_middles_nil (oldText newText : List Char)
    (hOld : oldMiddleOf oldText newText = [])
    (hNew : newMiddleOf oldText newText = []) : oldText = newText := by
  have h1 := oldText_decomposition oldText newText
  have h2 := newText_decomposition oldText newText
  rw [hOld] at h1
  rw [hNew] at h2
  calc oldText
      = oldText.take (prefixLengthOf oldText newText) ++ [] ++
          oldText.drop (oldText.length - suffixLengthOf oldText newText) := h1
    _ = newText.take (prefixLengthOf oldText newText) ++ [] ++
          newText.drop (newText.length - suffixLengthOf oldText newText) := by
        rw [take_prefixLengthOf_eq oldText newText, drop_suffixLengthOf_eq oldText newText]
    _ = newText := h2.symm

/-- C3 counterexample: for oldText "a" and newText "bc" the extractor
returns the replacement-as-insert operation Insert at 0 with length 1 and
content "bc", but inserting "bc" at position 0 into "a" gives "bca", not
"bc", so applying the operation does not reconstruct newText. -/
theorem calculateTextOperation_roundTrip_counterexample :
    calculateTextOperation ['a'] ['b', 'c'] 0 = some ⟨.insert, 0, 1, some ['b', 'c']⟩ ∧
    applyOperation ['a'] ⟨.insert, 0, 1, some ['b', 'c']⟩ ≠ ['b', 'c'] := by
  decide

/-- C3 amended: whenever prefix/suffix trimming leaves the old middle or the
new middle empty (a pure insertion or a pure deletion, excluding the
replacement-as-net-delta paths), applying the operation returned by
calculateTextOperation to oldText reconstructs newText exactly. -/
theorem calculateTextOperation_roundTrip_pure
    (oldText newText : List Char) (changePosition : Nat) (op : TextOperation)
    (h : calculateTextOperation oldText newText changePosition = some op)
    (hpure : oldMiddleOf oldText newText = [] ∨ newMiddleOf oldText newText = []) :
    applyOperation oldText op = newText := by
  have hpre := take_prefixLengthOf_eq oldText newText
  have hsuf := drop_suffixLengthOf_eq oldText newText
  have hOldDec := oldText_decomposition oldText newText
  have hNewDec := newText_decomposition oldText newText
  have hpsOld := prefix_suffix_le_old oldText newText
  have hpsNew := prefix_suffix_le_new oldText newText
  have hOldLen := oldMiddleOf_length oldText newText
  have hNewLen := newMiddleOf_length oldText newText
  rcases hpure with hOld | hNew
  · by_cases hNew : newMiddleOf oldText newText = []
    · have heq := eq_of_middles_nil oldText newText hOld hNew
      rw [calculateTextOperation, if_pos heq] at h
      exact absurd h (by simp)
    · have hne : oldText ≠ newText := fun he => hNew (newMiddleOf_eq_nil_of_eq _ _ he)
      rw [calculateTextOperation, if_neg hne,
        if_pos ⟨by simp [hOld], by
          have : (newMiddleOf oldText newText).length ≠ 0 :=
            fun hz => hNew (List.length_eq_zero.mp hz)
          omega⟩, Option.some_inj] at h
      subst h
      have hpEq : oldText.length - suffixLengthOf oldText newText =
          prefixLengthOf oldText newText := by
        rw [hOld] at hOldLen
        simp at hOldLen
        omega
      show applyInsert oldText (prefixLengthOf oldText newText)
        (newMiddleOf oldText newText) = newText
      unfold applyInsert
      have hdropEq : oldText.drop (prefixLengthOf oldText newText) =
          newText.drop (newText.length - suffixLengthOf oldText newText) := by
        rw [← hpEq]
        exact hsuf
      rw [hdropEq, hpre]
      exact hNewDec.symm
  · by_cases hOld : oldMiddleOf oldText newText = []
    · have heq := eq_of_middles_nil oldText newText hOld hNew
      rw [calculateTextOperation, if_pos heq] at h
      exact absurd h (by simp)
    · have hne : oldText ≠ newText := fun he => hOld (oldMiddleOf_eq_nil_of_eq _ _ he)
      have hOldLenNe : (oldMiddleOf oldText newText).length ≠ 0 :=
        fun hz => hOld (List.length_eq_zero.mp hz)
      rw [calculateTextOperation, if_neg hne, if_neg (by simp [hNew]),
        if_pos ⟨by omega, by simp [hNew]⟩, Option.some_inj] at h
      subst h
      have hpEq : newText.length - suffixLengthOf oldText newText =
          prefixLengthOf oldText newText := by
        rw [hNew] at hNewLen
        simp at hNewLen
        omega
      show applyDelete oldText (prefixLengthOf oldText newText)
        (oldMiddleOf oldText newText).length = newText
      unfold applyDelete
      have hdrop : prefixLengthOf oldText newText + (oldMiddleOf oldText newText).length =
          oldText.length - suffixLengthOf oldText newText := by omega
      rw [hNew] at hNewDec
      simp only [List.append_nil] at hNewDec
      rw [hdrop, hsuf, hpre]
      exact hNewDec.symm

theorem calculateTextOperation_roundTrip_pure_witness :
    applyOperation "hello world".toList ⟨.insert, 6, 10, some "beautiful ".toList⟩ =
      "hello beautiful world".toList :=
  calculateTextOperation_roundTrip_pure "hello world".toList
    "hello beautiful world".toList 0 ⟨.insert, 6, 10, some "beautiful ".toList⟩
    (by rfl) (Or.inl (by rfl))

/-! Room coordinator: the websocket CodeGateway (connectedUsers and
roomUsers maps plus the sequelize-backed document store) modelled as a pure
state-transition function.  Socket emissions become a list of GatewayEvent
values; Map.get/set/delete become association-list operations; the payload
of code_update is a CodePayload so that the typeof-string validation of
handleCodeUpdate is expressible. -/

structure ConnectedUser where
  id : List Char
  roomId : List Char
  nickname : List Char
  cursorPosition : Option Nat
deriving DecidableEq

structure CodeFile where
  code : List Char
  language : List Char
  expiresAt : Nat
deriving DecidableEq

structure RoomUserInfo where
  id : List Char
  nickname : List Char
deriving DecidableEq

structure CursorInfo where
  userId : List Char
  position : Nat
  nickname : List Char
deriving DecidableEq

/-- Map.get on a JavaScript Map modelled as an association list. -/
def alookup {β : Type} (k : List Char) : List (List Char × β) → Option β
  | [] => none
  | (k2, v) :: t => if k2 = k then some v else alookup k t

/-- Map.set: replace the binding if the key is present, append otherwise. -/
def aset {β : Type} (k : List Char) (v : β) : List (List Char × β) → List (List Char × β)
  | [] => [(k, v)]
  | (k2, v2) :: t => if k2 = k then (k, v) :: t else (k2, v2) :: aset k v t

/-- Map.delete. -/
def aremove {β : Type} (k : List Char) (l : List (List Char × β)) : List (List Char × β) :=
  l.filter (fun p => decide (p.1 ≠ k))

structure GatewayState where
  connectedUsers : List (List Char × ConnectedUser)
  roomUsers : List (List Char × List (List Char))
  store : List (List Char × CodeFile)
deriving DecidableEq

inductive GatewayEvent where
  | errorToSender (message : List Char)
  | joinedRoom (roomId code language : List Char)
  | userJoinedToRoom (roomId : List Char) (user : RoomUserInfo) (users : List RoomUserInfo)
  | userJoinedToSender (user : RoomUserInfo) (users : List RoomUserInfo)
  | userLeftToRoom (roomId : List Char) (user : RoomUserInfo) (users : List RoomUserInfo)
  | codeUpdatedToRoomExceptSender (roomId code : List Char) (language : Option (List Char))
      (userId userNickname oldCode : List Char) (allCursors : List CursorInfo)
deriving DecidableEq

def notInRoomMsg : List Char := "Not in room".toList

def invalidCodeMsg : List Char := "Invalid code data".toList

def roomNotFoundMsg : List Char := "Room not found".toList

def roomExpiredMsg : List Char := "Room has expired".toList

/-- The code payload of a code_update message: either a JavaScript string or
a value of some other runtime type (rejected by the typeof check). -/
inductive CodePayload where
  | str (s : List Char)
  | nonString
deriving DecidableEq

/-- The validation predicate of handleCodeUpdate:
typeof code !== 'string' || code.length > 1000000. -/
def invalidCode : CodePayload → Bool
  | .str s => decide (1000000 < s.length)
  | .nonString => true

/-- CodeService.updateCodeFile: findByPk, then update code (and language,
only when the language argument is a truthy string). -/
def updateCodeFile (store : List (List Char × CodeFile)) (roomId code : List Char)
    (language : Option (List Char)) : List (List Char × CodeFile) :=
  match alookup roomId store with
  | none => store
  | some f =>
    aset roomId
      ⟨code,
        match language with
        | some lang => if lang = [] then f.language else lang
        | none => f.language,
        f.expiresAt⟩ store

/-- The roster a broadcast carries: members mapped through connectedUsers,
dropping entries with no user record (the filter(Boolean) of the source). -/
def rosterOf (connectedUsers : List (List Char × ConnectedUser))
    (members : List (List Char)) : List RoomUserInfo :=
  members.filterMap (fun uid =>
    (alookup uid connectedUsers).map (fun u => ⟨u.id, u.nickname⟩))

/-- The allCursors list of handleCodeUpdate: members with a recorded cursor
position, others dropped. -/
def cursorsOf (st : GatewayState) (roomId : List Char) : List CursorInfo :=
  ((alookup roomId st.roomUsers).getD []).filterMap (fun uid =>
    match alookup uid st.connectedUsers with
    | some u => u.cursorPosition.map (fun p => ⟨u.id, p, u.nickname⟩)
    | none => none)

/-- The private leaveRoom helper of CodeGateway. -/
def leaveRoom (st : GatewayState) (clientId roomId : List Char) :
    GatewayState × List GatewayEvent :=
  match alookup roomId st.roomUsers with
  | none => (st, [])
  | some members =>
    (⟨st.connectedUsers,
      if members.filter (fun x => decide (x ≠ clientId)) = [] then aremove roomId st.roomUsers
      else aset roomId (members.filter (fun x => decide (x ≠ clientId))) st.roomUsers,
      st.store⟩,
     match alookup clientId st.connectedUsers with
     | some u =>
       [GatewayEvent.userLeftToRoom roomId ⟨u.id, u.nickname⟩
         (rosterOf st.connectedUsers (members.filter (fun x => decide (x ≠ clientId))))]
     | none => [])

/-- CodeGateway.handleJoinRoom.  The current wall-clock time and the
randomly generated fallback nickname are passed in as parameters. -/
def handleJoinRoom (now : Nat) (st : GatewayState) (clientId roomId : List Char)
    (nickname : Option (List Char)) (generatedNickname : List Char) :
    GatewayState × List GatewayEvent :=
  match alookup roomId st.store with
  | none => (st, [GatewayEvent.errorToSender roomNotFoundMsg])
  | some codeFile =>
    if codeFile.expiresAt < now then (st, [GatewayEvent.errorToSender roomExpiredMsg])
    else
      let leaveResult :=
        match alookup clientId st.connectedUsers with
        | some existingUser => leaveRoom st clientId existingUser.roomId
        | none => (st, [])
      let nick :=
        match nickname with
        | some n => if n = [] then generatedNickname else n
        | none => generatedNickname
      let connected2 := aset clientId ⟨clientId, roomId, nick, none⟩ leaveResult.1.connectedUsers
      let members := (alookup roomId leaveResult.1.roomUsers).getD []
      let members2 := if clientId ∈ members then members else members ++ [clientId]
      let st2 : GatewayState := ⟨connected2, aset roomId members2 leaveResult.1.roomUsers,
        leaveResult.1.store⟩
      let roster := rosterOf st2.connectedUsers ((alookup roomId st2.roomUsers).getD [])
      (st2, leaveResult.2 ++
        [GatewayEvent.joinedRoom roomId codeFile.code codeFile.language,
         GatewayEvent.userJoinedToRoom roomId ⟨clientId, nick⟩ roster,
         GatewayEvent.userJoinedToSender ⟨clientId, nick⟩ roster])

/-- CodeGateway.handleCodeUpdate (the gateway variant with payload
validation). -/
def handleCodeUpdate (st : GatewayState) (clientId roomId : List Char)
    (code : CodePayload) (language : Option (List Char)) :
    GatewayState × List GatewayEvent :=
  match alookup clientId st.connectedUsers with
  | none => (st, [GatewayEvent.errorToSender notInRoomMsg])
  | some user =>
    if user.roomId ≠ roomId then (st, [GatewayEvent.errorToSender notInRoomMsg])
    else
      match code with
      | .nonString => (st, [GatewayEvent.errorToSender invalidCodeMsg])
      | .str codeStr =>
        if 1000000 < codeStr.length then (st, [GatewayEvent.errorToSender invalidCodeMsg])
        else
          let oldCode :=
            match alookup roomId st.store with
            | some f => f.code
            | none => []
          let st2 : GatewayState :=
            ⟨st.connectedUsers, st.roomUsers, updateCodeFile st.store roomId codeStr language⟩
          (st2,
            [GatewayEvent.codeUpdatedToRoomExceptSender roomId codeStr language clientId
              user.nickname oldCode (cursorsOf st2 roomId)])

/-- C8: a room member submitting a code_update whose payload is not a string
or is longer than 1,000,000 characters gets exactly one error emission
"Invalid code data" back; the coordinator state (and in particular the
stored document) is unchanged and no code_updated broadcast is produced. -/
theorem handleCodeUpdate_invalid (st : GatewayState) (clientId roomId : List Char)
    (code : CodePayload) (language : Option (List Char)) (u : ConnectedUser)
    (hu : alookup clientId st.connectedUsers = some u)
    (hroom : u.roomId = roomId)
    (hbad : invalidCode code = true) :
    handleCodeUpdate st clientId roomId code language =
      (st, [GatewayEvent.errorToSender invalidCodeMsg]) := by
  unfold handleCodeUpdate
  rw [hu]
  dsimp only
  rw [if_neg (by simp [hroom])]
  cases code with
  | nonString => rfl
  | str s =>
    have hlen : 1000000 < s.length := by simpa [invalidCode] using hbad
    dsimp only
    rw [if_pos hlen]

theorem handleCodeUpdate_invalid_witness :
    handleCodeUpdate ⟨[(['c'], ⟨['c'], ['r'], ['n'], none⟩)], [(['r'], [['c']])], []⟩
      ['c'] ['r'] (.str (List.replicate 1000001 'a')) none =
      (⟨[(['c'], ⟨['c'], ['r'], ['n'], none⟩)], [(['r'], [['c']])], []⟩,
        [GatewayEvent.errorToSender invalidCodeMsg]) :=
  handleCodeUpdate_invalid _ ['c'] ['r'] _ none ⟨['c'], ['r'], ['n'], none⟩
    (by rfl) rfl
    (by simp only [invalidCode, List.length_replicate]; decide)

/-- C9: a join_room request referencing a document that does not exist makes
the coordinator emit the single error "Room not found" to the requester and
leaves the whole coordinator state unchanged; a request referencing a
document whose expiry lies before the current time likewise yields only the
"Room has expired" error and no state change. -/
theorem handleJoinRoom_errors (now : Nat) (st : GatewayState) (clientId roomId : List Char)
    (nickname : Option (List Char)) (generatedNickname : List Char) :
    (alookup roomId st.store = none →
      handleJoinRoom now st clientId roomId nickname generatedNickname =
        (st, [GatewayEvent.errorToSender roomNotFoundMsg])) ∧
    (∀ f : CodeFile, alookup roomId st.store = some f → f.expiresAt < now →
      handleJoinRoom now st clientId roomId nickname generatedNickname =
        (st, [GatewayEvent.errorToSender roomExpiredMsg])) := by
  constructor
  · intro h
    unfold handleJoinRoom
    rw [h]
  · intro f hf hexp
    unfold handleJoinRoom
    rw [hf]
    simp only [if_pos hexp]

theorem handleJoinRoom_errors_witness :
    handleJoinRoom 5 ⟨[], [], []⟩ ['c'] ['r'] none ['g'] =
      (⟨[], [], []⟩, [GatewayEvent.errorToSender roomNotFoundMsg]) ∧
    handleJoinRoom 5 ⟨[], [], [(['r'], ⟨[], [], 3⟩)]⟩ ['c'] ['r'] none ['g'] =
      (⟨[], [], [(['r'], ⟨[], [], 3⟩)]⟩, [GatewayEvent.errorToSender roomExpiredMsg]) :=
  ⟨(handleJoinRoom_errors 5 ⟨[], [], []⟩ ['c'] ['r'] none ['g']).1 rfl,
   (handleJoinRoom_errors 5 ⟨[], [], [(['r'], ⟨[], [], 3⟩)]⟩ ['c'] ['r'] none ['g']).2
     ⟨[], [], 3⟩ rfl (by decide)⟩

/-! Cursor rebaser: getLineAndColumn, getPositionFromLineColumn and
transformCursorPosition of cursorTransform.ts. -/

/-- JavaScript text.split('\n') on a character list: always non-empty, with
empty segments for leading/trailing/adjacent newlines. -/
def splitLines : List Char → List (List Char)
  | [] => [[]]
  | c :: cs =>
    if c = '\n' then [] :: splitLines cs
    else
      match splitLines cs with
      | [] => [[c]]
      | h :: t => (c :: h) :: t

structure LineCol where
  line : Nat
  column : Nat
deriving DecidableEq

/-- getLineAndColumn: split the prefix before the position on newlines; the
line is lines.length - 1 and the column the length of the last segment. -/
def getLineAndColumn (text : List Char) (position : Nat) : LineCol :=
  ⟨(splitLines (text.take position)).length - 1,
   ((splitLines (text.take position)).getLastD []).length⟩

/-- getPositionFromLineColumn: sum the lengths (plus one per newline) of the
lines before the target line, then add the column clamped to the target
line's length. -/
def getPositionFromLineColumn (text : List Char) (line column : Nat) : Nat :=
  (((splitLines text).take line).map (fun l => l.length + 1)).sum +
    (if line < (splitLines text).length then
      min column ((splitLines text).getD line []).length
    else 0)

structure TransformResult where
  position : Option Nat
  wasUnchanged : Bool
deriving DecidableEq

/-- transformCursorPosition of cursorTransform.ts.  The two trailing delete
returns of the source (the lines-deleted-zero check and the final fallback)
both yield the unchanged cursor, and are merged into the final else. -/
def transformCursorPosition (cursorPosition : Nat) (operation : TextOperation)
    (oldText newText : List Char) : TransformResult :=
  match operation.type with
  | .insert =>
    if (getLineAndColumn oldText operation.position).line ≠
        (getLineAndColumn oldText cursorPosition).line then
      if (getLineAndColumn oldText operation.position).line <
          (getLineAndColumn oldText cursorPosition).line then
        if 0 < (splitLines (operation.content.getD [])).length - 1 then
          ⟨some (getPositionFromLineColumn newText
            ((getLineAndColumn oldText cursorPosition).line +
              ((splitLines (operation.content.getD [])).length - 1))
            (getLineAndColumn oldText cursorPosition).column), false⟩
        else ⟨some (cursorPosition + operation.length), false⟩
      else ⟨some cursorPosition, true⟩
    else
      if 0 < (splitLines (operation.content.getD [])).length - 1 then
        if (getLineAndColumn oldText operation.position).column ≤
            (getLineAndColumn oldText cursorPosition).column then
          ⟨some (getPositionFromLineColumn newText
            ((getLineAndColumn oldText cursorPosition).line +
              ((splitLines (operation.content.getD [])).length - 1))
            ((getLineAndColumn oldText cursorPosition).column -
              (getLineAndColumn oldText operation.position).column +
              ((splitLines (operation.content.getD [])).getLastD []).length)), false⟩
        else
          ⟨some (getPositionFromLineColumn newText
            (getLineAndColumn oldText cursorPosition).line
            (getLineAndColumn oldText cursorPosition).column), false⟩
      else
        if (getLineAndColumn oldText operation.position).column ≤
            (getLineAndColumn oldText cursorPosition).column then
          ⟨some (getPositionFromLineColumn newText
            (getLineAndColumn oldText cursorPosition).line
            ((getLineAndColumn oldText cursorPosition).column +
              (match operation.content with
               | some c => if c.length = 0 then operation.length else c.length
               | none => operation.length))), false⟩
        else
          ⟨some (getPositionFromLineColumn newText
            (getLineAndColumn oldText cursorPosition).line
            (getLineAndColumn oldText cursorPosition).column), true⟩
  | .delete =>
    if (getLineAndColumn oldText (operation.position + operation.length)).line <
        (getLineAndColumn oldText cursorPosition).line then
      ⟨some (getPositionFromLineColumn newText
        ((getLineAndColumn oldText cursorPosition).line -
          ((getLineAndColumn oldText (operation.position + operation.length)).line -
            (getLineAndColumn oldText operation.position).line))
        (getLineAndColumn oldText cursorPosition).column), false⟩
    else if (getLineAndColumn oldText operation.position).line <
        (getLineAndColumn oldText cursorPosition).line ∧
        (getLineAndColumn oldText cursorPosition).line ≤
          (getLineAndColumn oldText (operation.position + operation.length)).line then
      if operation.length = 1 ∧
          (getLineAndColumn oldText (operation.position + operation.length)).line =
            (getLineAndColumn oldText cursorPosition).line then
        ⟨some (operation.position + (getLineAndColumn oldText cursorPosition).column), false⟩
      else ⟨some operation.position, false⟩
    else if (getLineAndColumn oldText operation.position).line =
        (getLineAndColumn oldText cursorPosition).line ∧
        (getLineAndColumn oldText (operation.position + operation.length)).line =
          (getLineAndColumn oldText cursorPosition).line then
      if operation.position + operation.length ≤ cursorPosition then
        ⟨some (cursorPosition - operation.length), false⟩
      else if operation.position < cursorPosition ∧
          cursorPosition < operation.position + operation.length then
        ⟨some operation.position, false⟩
      else
        ⟨some (getPositionFromLineColumn newText
          (getLineAndColumn oldText cursorPosition).line
          (getLineAndColumn oldText cursorPosition).column), true⟩
    else ⟨some cursorPosition, true⟩

structure CursorTransformResult where
  userId : List Char
  position : Option Nat
  wasUnchanged : Bool
deriving DecidableEq

/-- transformMultipleCursors of cursorTransform.ts. -/
def transformMultipleCursors (cursors : List (List Char × Nat))
    (operation : TextOperation) (oldText newText : List Char) :
    List CursorTransformResult :=
  cursors.map (fun cursor =>
    ⟨cursor.1, (transformCursorPosition cursor.2 operation oldText newText).position,
     (transformCursorPosition cursor.2 operation oldText newText).wasUnchanged⟩)

def isNotNewline (c : Char) : Bool := decide (c ≠ '\n')

theorem splitLines_ne_nil : ∀ l : List Char, splitLines l ≠ []
  | [] => by simp [splitLines]
  | c :: cs => by
    by_cases h : c = '\n'
    · simp [splitLines, h]
    · simp only [splitLines, if_neg h]
      cases hs : splitLines cs <;> simp

theorem splitLines_newline (cs : List Char) :
    splitLines ('\n' :: cs) = [] :: splitLines cs := by
  simp [splitLines]

theorem splitLines_cons_ne (c : Char) (cs : List Char) (h : c ≠ '\n') :
    splitLines (c :: cs) = (c :: (splitLines cs).headD []) :: (splitLines cs).tail := by
  cases hs : splitLines cs with
  | nil => exact absurd hs (splitLines_ne_nil cs)
  | cons a t => simp [splitLines, h, hs]

theorem splitLines_length (l : List Char) :
    (splitLines l).length = l.count '\n' + 1 := by
  induction l with
  | nil => simp [splitLines]
  | cons c cs ih =>
    by_cases h : c = '\n'
    · subst h
      rw [splitLines_newline]
      simp [List.count_cons, ih]
    · rw [splitLines_cons_ne c cs h]
      have hne := splitLines_ne_nil cs
      have hlen : (splitLines cs).length ≠ 0 := fun hz => hne (List.length_eq_zero.mp hz)
      simp only [List.length_cons, List.length_tail, List.count_cons]
      simp [h]
      omega

theorem splitLines_headD (l : List Char) :
    (splitLines l).headD [] = l.takeWhile isNotNewline := by
  induction l with
  | nil => simp [splitLines]
  | cons c cs ih =>
    by_cases h : c = '\n'
    · subst h
      rw [splitLines_newline]
      simp [List.takeWhile_cons, isNotNewline]
    · rw [splitLines_cons_ne c cs h, ih]
      simp [List.headD, List.takeWhile_cons, isNotNewline, h]

theorem takeWhile_append_false {p : Char → Bool} :
    ∀ (l m : List Char) (x : Char), p x = false →
      ((l ++ x :: m).takeWhile p = l.takeWhile p)
  | [], m, x, hx => by simp [List.takeWhile_cons, hx]
  | a :: l, m, x, hx => by
    by_cases hpa : p a = true
    · simp only [List.cons_append, List.takeWhile_cons, hpa, if_true]
      rw [takeWhile_append_false l m x hx]
    · simp [List.takeWhile_cons, hpa]

theorem takeWhile_append_exists_false {p : Char → Bool} :
    ∀ (l m : List Char), (∃ x ∈ l, p x = false) →
      ((l ++ m).takeWhile p = l.takeWhile p)
  | [], m, h => by
    obtain ⟨x, hx, _⟩ := h
    exact absurd hx (List.not_mem_nil x)
  | a :: l, m, h => by
    by_cases hpa : p a = true
    · obtain ⟨x, hx, hpx⟩ := h
      have hxl : x ∈ l := by
        rcases List.mem_cons.mp hx with he | hl
        · subst he
          rw [hpa] at hpx
          exact absurd hpx (by simp)
        · exact hl
      simp only [List.cons_append, List.takeWhile_cons, hpa, if_true]
      rw [takeWhile_append_exists_false l m ⟨x, hxl, hpx⟩]
    · simp [List.takeWhile_cons, hpa]

theorem all_isNotNewline_of_count_zero {l : List Char} (h : l.count '\n' = 0) :
    ∀ x ∈ l, isNotNewline x = true := by
  intro x hx
  have hne : x ≠ '\n' := by
    intro he
    subst he
    rw [List.count_eq_zero] at h
    exact h hx
  simp [isNotNewline, hne]

theorem takeWhile_eq_self_of_count_zero {l : List Char} (h : l.count '\n' = 0) :
    l.takeWhile isNotNewline = l :=
  List.takeWhile_eq_self_iff.mpr (all_isNotNewline_of_count_zero h)

theorem newline_mem_of_count_ne_zero {l : List Char} (h : l.count '\n' ≠ 0) :
    '\n' ∈ l := by
  by_contra hmem
  exact h (List.count_eq_zero.mpr hmem)

theorem getLastD_cons_of_ne_nil {α : Type} {l : List α} (a d : α) (h : l ≠ []) :
    (a :: l).getLastD d = l.getLastD d := by
  cases l with
  | nil => exact absurd rfl h
  | cons b t => rw [List.getLastD_cons, List.getLastD_cons, List.getLastD_cons]

theorem splitLines_getLastD (l : List Char) :
    (splitLines l).getLastD [] = (l.reverse.takeWhile isNotNewline).reverse := by
  induction l with
  | nil => simp [splitLines]
  | cons c cs ih =>
    by_cases h : c = '\n'
    · subst h
      rw [splitLines_newline,
        getLastD_cons_of_ne_nil [] [] (splitLines_ne_nil cs), ih,
        List.reverse_cons, takeWhile_append_false cs.reverse [] '\n' (by simp [isNotNewline])]
    · rw [splitLines_cons_ne c cs h]
      cases hs : splitLines cs with
      | nil => exact absurd hs (splitLines_ne_nil cs)
      | cons a t0 =>
        rw [hs] at ih
        have hheadD : (a :: t0).headD [] = a := rfl
        cases t0 with
        | nil =>
          have hcount : cs.count '\n' = 0 := by
            have := splitLines_length cs
            rw [hs] at this
            simp at this
            omega
          have hacs : a = cs := by
            have h1 : (([a] : List (List Char)).getLastD []) = a := rfl
            rw [h1] at ih
            rw [takeWhile_eq_self_of_count_zero (by simpa using hcount),
              List.reverse_reverse] at ih
            exact ih
          simp only [List.headD_cons, List.tail_cons]
          subst hacs
          show ([(c :: a)].getLastD []) = ((c :: a).reverse.takeWhile isNotNewline).reverse
          rw [List.reverse_cons,
            List.takeWhile_append_of_pos (all_isNotNewline_of_count_zero
              (by simpa using hcount))]
          simp [List.takeWhile_cons, isNotNewline, h]
        | cons x t1 =>
          simp only [List.headD_cons, List.tail_cons]
          have hcount : cs.count '\n' ≠ 0 := by
            have := splitLines_length cs
            rw [hs] at this
            simp at this
            omega
          have hmem : '\n' ∈ cs.reverse := by
            rw [List.mem_reverse]
            exact newline_mem_of_count_ne_zero hcount
          rw [List.reverse_cons,
            takeWhile_append_exists_false cs.reverse [c] ⟨'\n', hmem, by simp [isNotNewline]⟩]
          rw [← ih]
          rw [List.getLastD_cons, List.getLastD_cons, List.getLastD_cons, List.getLastD_cons]

theorem line_eq_count (text : List Char) (position : Nat) :
    (getLineAndColumn text position).line = (text.take position).count '\n' := by
  simp [getLineAndColumn, splitLines_length]

theorem column_eq_takeWhile (text : List Char) (position : Nat) :
    (getLineAndColumn text position).column =
      ((text.take position).reverse.takeWhile isNotNewline).length := by
  show ((splitLines (text.take position)).getLastD []).length = _
  rw [splitLines_getLastD, List.length_reverse]

theorem getPos_zero (text : List Char) (column : Nat) :
    getPositionFromLineColumn text 0 column =
      min column ((splitLines text).headD []).length := by
  unfold getPositionFromLineColumn
  cases hs : splitLines text with
  | nil => exact absurd hs (splitLines_ne_nil text)
  | cons a t => simp

theorem getPos_newline (cs : List Char) (line column : Nat) :
    getPositionFromLineColumn ('\n' :: cs) (line + 1) column =
      1 + getPositionFromLineColumn cs line column := by
  unfold getPositionFromLineColumn
  rw [splitLines_newline]
  simp only [List.take_succ_cons, List.map_cons, List.sum_cons, List.getD_cons_succ,
    List.length_cons, List.length_nil, Nat.add_lt_add_iff_right]
  omega

theorem getPos_cons_ne (c : Char) (cs : List Char) (h : c ≠ '\n') (line column : Nat) :
    getPositionFromLineColumn (c :: cs) (line + 1) column =
      1 + getPositionFromLineColumn cs (line + 1) column := by
  unfold getPositionFromLineColumn
  rw [splitLines_cons_ne c cs h]
  cases hs : splitLines cs with
  | nil => exact absurd hs (splitLines_ne_nil cs)
  | cons a t =>
    simp only [List.headD_cons, List.tail_cons, List.take_succ_cons, List.map_cons,
      List.sum_cons, List.getD_cons_succ, List.length_cons, Nat.add_lt_add_iff_right]
    omega

theorem take_count_le_takeWhile :
    ∀ (cs : List Char) (q : Nat), q ≤ cs.length → (cs.take q).count '\n' = 0 →
      q ≤ (cs.takeWhile isNotNewline).length
  | _, 0, _, _ => Nat.zero_le _
  | [], q + 1, hq, _ => by simp at hq
  | a :: cs, q + 1, hq, hcount => by
    rw [List.take_succ_cons, List.count_cons] at hcount
    have ha : a ≠ '\n' := by
      intro he
      subst he
      simp at hcount
    have h0 : (cs.take q).count '\n' = 0 := by
      simp [ha] at hcount
      exact hcount
    rw [List.takeWhile_cons, if_pos (by simp [isNotNewline, ha])]
    have := take_count_le_takeWhile cs q (by simpa using hq) h0
    simpa using this

theorem getPos_lineCol (text : List Char) :
    ∀ position : Nat, position ≤ text.length →
      getPositionFromLineColumn text (getLineAndColumn text position).line
        (getLineAndColumn text position).column = position := by
  induction text with
  | nil =>
    intro pos hpos
    have : pos = 0 := by simpa using hpos
    subst this
    rfl
  | cons c cs ih =>
    intro pos hpos
    cases pos with
    | zero =>
      have h0 : getLineAndColumn (c :: cs) 0 = ⟨0, 0⟩ := rfl
      rw [h0, getPos_zero]
      simp
    | succ q =>
      have hq : q ≤ cs.length := by simpa using hpos
      by_cases hc : c = '\n'
      · subst hc
        have hline : (getLineAndColumn ('\n' :: cs) (q + 1)).line =
            (getLineAndColumn cs q).line + 1 := by
          rw [line_eq_count, line_eq_count, List.take_succ_cons, List.count_cons]
          simp
        have hcol : (getLineAndColumn ('\n' :: cs) (q + 1)).column =
            (getLineAndColumn cs q).column := by
          rw [column_eq_takeWhile, column_eq_takeWhile, List.take_succ_cons,
            List.reverse_cons,
            takeWhile_append_false (cs.take q).reverse [] '\n' (by simp [isNotNewline])]
        rw [hline, hcol, getPos_newline, ih q hq]
        omega
      · have hline : (getLineAndColumn (c :: cs) (q + 1)).line =
            (getLineAndColumn cs q).line := by
          rw [line_eq_count, line_eq_count, List.take_succ_cons, List.count_cons]
          simp [hc]
        by_cases hnl : (cs.take q).count '\n' = 0
        · have hline0 : (getLineAndColumn cs q).line = 0 := by
            rw [line_eq_count]
            exact hnl
          have hcol : (getLineAndColumn (c :: cs) (q + 1)).column = q + 1 := by
            rw [column_eq_takeWhile, List.take_succ_cons, List.reverse_cons,
              List.takeWhile_append_of_pos (by
                intro x hx
                exact all_isNotNewline_of_count_zero hnl x (List.mem_reverse.mp hx))]
            rw [List.takeWhile_cons, if_pos (by simp [isNotNewline, hc])]
            simp [List.length_take]
            omega
          rw [hline, hline0, hcol, getPos_zero, splitLines_cons_ne c cs hc,
            List.headD_cons, splitLines_headD]
          have hle : q ≤ (cs.takeWhile isNotNewline).length :=
            take_count_le_takeWhile cs q hq hnl
          simp
          omega
        · have hmem : '\n' ∈ (cs.take q).reverse := by
            rw [List.mem_reverse]
            exact newline_mem_of_count_ne_zero hnl
          have hcol : (getLineAndColumn (c :: cs) (q + 1)).column =
              (getLineAndColumn cs q).column := by
            rw [column_eq_takeWhile, column_eq_takeWhile, List.take_succ_cons,
              List.reverse_cons,
              takeWhile_append_exists_false (cs.take q).reverse [c]
                ⟨'\n', hmem, by simp [isNotNewline]⟩]
          obtain ⟨k, hk⟩ : ∃ k, (getLineAndColumn cs q).line = k + 1 := by
            rw [line_eq_count]
            exact ⟨(cs.take q).count '\n' - 1, by omega⟩
          rw [hline, hcol, hk, getPos_cons_ne c cs hc, ← hk, ih q hq]
          omega

theorem take_decompose (A : List Char) (k P : Nat) (hkP : k ≤ P) :
    A.take P = A.take k ++ (A.drop k).take (P - k) := by
  conv_lhs => rw [show P = k + (P - k) by omega]
  rw [List.take_add]

theorem sameline_middle_count (A : List Char) (k P : Nat) (hkP : k ≤ P)
    (hline : (A.take k).count '\n' = (A.take P).count '\n') :
    ((A.drop k).take (P - k)).count '\n' = 0 := by
  have hdec := take_decompose A k P hkP
  rw [hdec, List.count_append] at hline
  omega

theorem sameline_col (A : List Char) (k P : Nat) (hkP : k ≤ P) (hP : P ≤ A.length)
    (hmid : ((A.drop k).take (P - k)).count '\n' = 0) :
    ((A.take P).reverse.takeWhile isNotNewline).length =
      (P - k) + ((A.take k).reverse.takeWhile isNotNewline).length := by
  rw [take_decompose A k P hkP, List.reverse_append,
    List.takeWhile_append_of_pos (fun x hx =>
      all_isNotNewline_of_count_zero hmid x (List.mem_reverse.mp hx)),
    List.length_append, List.length_reverse]
  have hlen : ((A.drop k).take (P - k)).length = P - k := by
    rw [List.length_take, List.length_drop]
    omega
  omega

/-- C6: a Delete that starts on a line strictly above the cursor's line and
ends on or at the cursor's line relocates the cursor to the deletion start,
except in the special case of a single-character deletion ending on the
cursor's line (deleting the newline right before it), where the cursor goes
to deletion start plus its old column; both with wasUnchanged = false. -/
theorem transformCursorPosition_delete_straddle
    (oldText newText : List Char) (k len P : Nat)
    (h1 : (getLineAndColumn oldText k).line < (getLineAndColumn oldText P).line)
    (h2 : (getLineAndColumn oldText P).line ≤ (getLineAndColumn oldText (k + len)).line) :
    (len = 1 ∧ (getLineAndColumn oldText (k + len)).line = (getLineAndColumn oldText P).line →
      transformCursorPosition P ⟨.delete, k, len, none⟩ oldText newText =
        ⟨some (k + (getLineAndColumn oldText P).column), false⟩) ∧
    (¬(len = 1 ∧ (getLineAndColumn oldText (k + len)).line =
        (getLineAndColumn oldText P).line) →
      transformCursorPosition P ⟨.delete, k, len, none⟩ oldText newText =
        ⟨some k, false⟩) := by
  unfold transformCursorPosition
  dsimp only
  rw [if_neg (by omega), if_pos ⟨h1, h2⟩]
  constructor
  · intro hcase
    rw [if_pos hcase]
  · intro hcase
    rw [if_neg hcase]

theorem transformCursorPosition_delete_straddle_witness :
    transformCursorPosition 4 ⟨.delete, 2, 1, none⟩ "ab\ncd".toList "abcd".toList =
      ⟨some 3, false⟩ :=
  (transformCursorPosition_delete_straddle "ab\ncd".toList "abcd".toList 2 1 4
    (by decide) (by decide)).1 (by decide)

/-- C5: for a Delete lying entirely on the cursor's line, the cursor shifts
left by the deleted length when the span ends at or before it, snaps to the
deletion start when the span strictly contains it, and stays in place
(wasUnchanged = true) when the span lies entirely at or after it; in
particular cursor 16 in "hello beautiful world" under Delete at 6 length 10
moves to 6 with wasUnchanged = false. -/
theorem transformCursorPosition_delete_same_line
    (A : List Char) (k len P : Nat)
    (hlen : 0 < len) (hval : k + len ≤ A.length) (hP : P ≤ A.length)
    (hopline : (getLineAndColumn A k).line = (getLineAndColumn A P).line)
    (hendline : (getLineAndColumn A (k + len)).line = (getLineAndColumn A P).line) :
    (k + len ≤ P →
      transformCursorPosition P ⟨.delete, k, len, none⟩ A (A.take k ++ A.drop (k + len)) =
        ⟨some (P - len), false⟩) ∧
    (k < P ∧ P < k + len →
      transformCursorPosition P ⟨.delete, k, len, none⟩ A (A.take k ++ A.drop (k + len)) =
        ⟨some k, false⟩) ∧
    (P ≤ k →
      transformCursorPosition P ⟨.delete, k, len, none⟩ A (A.take k ++ A.drop (k + len)) =
        ⟨some P, true⟩) := by
  unfold transformCursorPosition
  dsimp only
  rw [if_neg (by omega), if_neg (by omega), if_pos ⟨hopline, hendline⟩]
  refine ⟨fun hcase1 => ?_, fun hcase2 => ?_, fun hcase3 => ?_⟩
  · rw [if_pos hcase1]
  · rw [if_neg (by omega), if_pos (by omega)]
  · rw [if_neg (by omega), if_neg (by omega)]
    have hBtake : (A.take k ++ A.drop (k + len)).take P = A.take P := by
      rw [List.take_append_of_le_length (by rw [List.length_take]; omega),
        List.take_take]
      congr 1
      omega
    have hlineB : (getLineAndColumn (A.take k ++ A.drop (k + len)) P).line =
        (getLineAndColumn A P).line := by
      rw [line_eq_count, line_eq_count, hBtake]
    have hcolB : (getLineAndColumn (A.take k ++ A.drop (k + len)) P).column =
        (getLineAndColumn A P).column := by
      rw [column_eq_takeWhile, column_eq_takeWhile, hBtake]
    have hPB : P ≤ (A.take k ++ A.drop (k + len)).length := by
      rw [List.length_append, List.length_take, List.length_drop]
      omega
    have hinv := getPos_lineCol (A.take k ++ A.drop (k + len)) P hPB
    rw [hlineB, hcolB] at hinv
    rw [hinv]

theorem transformCursorPosition_delete_same_line_witness :
    transformCursorPosition 16 ⟨.delete, 6, 10, none⟩ "hello beautiful world".toList
      "hello world".toList = ⟨some 6, false⟩ :=
  (transformCursorPosition_delete_same_line "hello beautiful world".toList 6 10 16
    (by decide) (by decide) (by decide) (by decide) (by decide)).1 (by decide)

/-- C4: for an Insert of newline-free content c at offset k (length =
c.length), with oldText and newText = oldText with c spliced in at k, a
cursor on the same line at offset ≥ k moves forward by exactly c.length,
and a cursor strictly before k on that line keeps its exact offset
(flagged unchanged). -/
theorem transformCursorPosition_insert_same_line
    (A c : List Char) (k P : Nat)
    (hc : c.count '\n' = 0)
    (hk : k ≤ A.length) (hP : P ≤ A.length)
    (hline : (getLineAndColumn A k).line = (getLineAndColumn A P).line) :
    (k ≤ P →
      transformCursorPosition P ⟨.insert, k, c.length, some c⟩ A
        (A.take k ++ c ++ A.drop k) = ⟨some (P + c.length), false⟩) ∧
    (P < k →
      transformCursorPosition P ⟨.insert, k, c.length, some c⟩ A
        (A.take k ++ c ++ A.drop k) = ⟨some P, true⟩) := by
  have hlk := line_eq_count A k
  have hlp := line_eq_count A P
  have hcount : (A.take k).count '\n' = (A.take P).count '\n' := by omega
  have hnla : ¬(0 < (splitLines ((some c : Option (List Char)).getD [])).length - 1) := by
    rw [Option.getD_some, splitLines_length]
    omega
  have hcolk := column_eq_takeWhile A k
  have hcolp := column_eq_takeWhile A P
  constructor
  · intro hkP
    have hmid := sameline_middle_count A k P hkP hcount
    have hcolP := sameline_col A k P hkP hP hmid
    unfold transformCursorPosition
    dsimp only
    rw [if_neg (by simp [hline]), if_neg hnla, if_pos (by omega), ite_self]
    have hBtake : (A.take k ++ c ++ A.drop k).take (P + c.length) =
        A.take k ++ c ++ (A.drop k).take (P - k) := by
      have hlen1 : P + c.length = (A.take k ++ c).length + (P - k) := by
        rw [List.length_append, List.length_take]
        omega
      rw [hlen1, List.take_append]
    have hmidlen : ((A.drop k).take (P - k)).length = P - k := by
      rw [List.length_take, List.length_drop]
      omega
    have hlineB : (getLineAndColumn (A.take k ++ c ++ A.drop k) (P + c.length)).line =
        (getLineAndColumn A P).line := by
      rw [line_eq_count, hBtake, List.count_append, List.count_append]
      omega
    have hcolB : (getLineAndColumn (A.take k ++ c ++ A.drop k) (P + c.length)).column =
        (getLineAndColumn A P).column + c.length := by
      rw [column_eq_takeWhile, hBtake, List.reverse_append, List.reverse_append,
        List.takeWhile_append_of_pos (fun x hx =>
          all_isNotNewline_of_count_zero hmid x (List.mem_reverse.mp hx)),
        List.takeWhile_append_of_pos (fun x hx =>
          all_isNotNewline_of_count_zero hc x (List.mem_reverse.mp hx)),
        List.length_append, List.length_append, List.length_reverse,
        List.length_reverse]
      omega
    have hPB : P + c.length ≤ (A.take k ++ c ++ A.drop k).length := by
      rw [List.length_append, List.length_append, List.length_take, List.length_drop]
      omega
    have hinv := getPos_lineCol (A.take k ++ c ++ A.drop k) (P + c.length) hPB
    rw [hlineB, hcolB] at hinv
    rw [hinv]
  · intro hPk
    have hmid := sameline_middle_count A P k (Nat.le_of_lt hPk) hcount.symm
    have hcolK := sameline_col A P k (Nat.le_of_lt hPk) hk hmid
    unfold transformCursorPosition
    dsimp only
    rw [if_neg (by simp [hline]), if_neg hnla, if_neg (by omega)]
    have hBtakeP : (A.take k ++ c ++ A.drop k).take P = A.take P := by
      rw [List.take_append_of_le_length (by
          rw [List.length_append, List.length_take]
          omega),
        List.take_append_of_le_length (by rw [List.length_take]; omega),
        List.take_take]
      congr 1
      omega
    have hlineB : (getLineAndColumn (A.take k ++ c ++ A.drop k) P).line =
        (getLineAndColumn A P).line := by
      rw [line_eq_count, line_eq_count, hBtakeP]
    have hcolB : (getLineAndColumn (A.take k ++ c ++ A.drop k) P).column =
        (getLineAndColumn A P).column := by
      rw [column_eq_takeWhile, column_eq_takeWhile, hBtakeP]
    have hPB : P ≤ (A.take k ++ c ++ A.drop k).length := by
      rw [List.length_append, List.length_append, List.length_take, List.length_drop]
      omega
    have hinv := getPos_lineCol (A.take k ++ c ++ A.drop k) P hPB
    rw [hlineB, hcolB] at hinv
    rw [hinv]

theorem transformCursorPosition_insert_same_line_witness :
    transformCursorPosition 8 ⟨.insert, 6, 10, some "beautiful ".toList⟩
      "hello world".toList "hello beautiful world".toList = ⟨some 18, false⟩ :=
  (transformCursorPosition_insert_same_line "hello world".toList "beautiful ".toList
    6 8 (by decide) (by decide) (by decide) (by decide)).1 (by decide)

/-- C10: transformCursorPosition returns a concrete (non-null) position on
every input, for both operation kinds and all cursor offsets and texts, and
consequently transformMultipleCursors never maps a participant to a hidden
(null) cursor. -/
theorem transformCursorPosition_never_null :
    (∀ (cursorPosition : Nat) (operation : TextOperation) (oldText newText : List Char),
      (transformCursorPosition cursorPosition operation oldText newText).position.isSome =
        true) ∧
    (∀ (cursors : List (List Char × Nat)) (operation : TextOperation)
        (oldText newText : List Char),
      (transformMultipleCursors cursors operation oldText newText).all
        (fun r => r.position.isSome) = true) := by
  have h1 : ∀ (cursorPosition : Nat) (operation : TextOperation) (oldText newText : List Char),
      (transformCursorPosition cursorPosition operation oldText newText).position.isSome =
        true := by
    intro P op A B
    rcases op with ⟨t, pos, len, content⟩
    cases t <;>
      (unfold transformCursorPosition
       dsimp only
       repeat' split
       all_goals rfl)
  refine ⟨h1, fun cursors op A B => ?_⟩
  rw [List.all_eq_true]
  intro r hr
  simp only [transformMultipleCursors, List.mem_map] at hr
  obtain ⟨cur, _, rfl⟩ := hr
  exact h1 cur.2 op A B
